import Mathlib

/-!
Verification of the EE_FILE record store (src/eefile.cpp, src/eefile.h).

The development shallowly embeds the C++ class `EEFILE`:
  * the descriptor table `files` becomes a `List FileMetadata` (its length is
    `fileCount`), the device becomes a function `Nat → Nat` holding byte values;
  * `uint16_t` arithmetic is `Nat` arithmetic with an explicit `% 65536`
    exactly where the C code truncates (local variables, returns, stores);
  * `uint8_t` stores truncate with `% 256` inside `writeByte`;
  * fallible operations return their success flag alongside the updated state.
-/

def EEFILE_MAX_FILES : Nat := 10
def EEFILE_SECTOR_SIZE : Nat := 256
def EEFILE_NUM_SECTORS : Nat := 2
def EEFILE_TOTAL_SIZE : Nat := EEFILE_SECTOR_SIZE * EEFILE_NUM_SECTORS

/-- One entry of the descriptor table (struct `FileMetadata` in eefile.h).
All numeric fields are `uint16_t` in the source except `type` (the enum). -/
structure FileMetadata where
  type : Nat
  maxSize : Nat
  startAddr : Nat
  endAddr : Nat
  dataLen : Nat
  enabled : Bool
  modified : Bool
deriving DecidableEq

/-- Default descriptor, used as the `getD` fallback (never reached when the
index comes from `findFileIndex`). -/
def dfile : FileMetadata :=
  { type := 0, maxSize := 0, startAddr := 0, endAddr := 0, dataLen := 0,
    enabled := false, modified := false }

/-- The in-memory state of the store: the descriptor table (`files` together
with `fileCount`) and the global enable flag `is_enabled`. -/
structure EEFILE where
  files : List FileMetadata
  is_enabled : Bool
deriving DecidableEq

/-- State right after `EE_INIT()` (constructor followed by `begin`):
no files registered, store enabled. -/
def emptyStore : EEFILE := { files := [], is_enabled := true }

/-- The raw EEPROM device: a byte value for every address. -/
abbrev Device := Nat → Nat

/-- `EEPROM.write(addr, value)`: the value parameter is a `uint8_t`. -/
def writeByte (d : Device) (addr v : Nat) : Device :=
  fun a => if a = addr then v % 256 else d a

/-- The payload loop of `EEFILE::write`:
`for (i = start; i < start + k; i++) EEPROM.write(base + i, data[i]);`. -/
def writeData (base : Nat) (data : List Nat) : Nat → Device → Nat → Device
  | 0, d, _ => d
  | k + 1, d, i => writeData base data k (writeByte d (base + i) (data.getD i 0)) (i + 1)

/-- The padding loop of `EEFILE::write`:
`for (i = start; i < start + k; i++) EEPROM.write(base + i, 0xFF);`. -/
def writeFill (base : Nat) : Nat → Device → Nat → Device
  | 0, d, _ => d
  | k + 1, d, i => writeFill base k (writeByte d (base + i) 0xFF) (i + 1)

/-- Linear scan of the descriptor table (`EEFILE::findFileIndex`), returning
the first index whose `type` matches; `none` models the C return value `-1`. -/
def findIdxAux (t : Nat) : List FileMetadata → Option Nat
  | [] => none
  | f :: rest => if f.type = t then some 0 else (findIdxAux t rest).map (fun i => i + 1)

def EEFILE.findFileIndex (s : EEFILE) (t : Nat) : Option Nat :=
  findIdxAux t s.files

/-- `EEFILE::calculateNextAddr`: 0 when the table is empty, otherwise
`files[fileCount-1].endAddr + 1` truncated to `uint16_t`. -/
def EEFILE.calculateNextAddr (s : EEFILE) : Nat :=
  if s.files.length = 0 then 0
  else ((s.files.getD (s.files.length - 1) dfile).endAddr + 1) % 65536

/-- `EEFILE::registerAuto`. The parameter `maxSize0` is a `uint16_t`, hence
the `% 65536` at entry; `actualSize = maxSize + 1` is stored back into a
`uint16_t` local, hence its `% 65536`; `endAddr = nextAddr + actualSize - 1`
is the int expression converted to `uint16_t` (`+ 65535` realises the `- 1`). -/
def EEFILE.registerAuto (s : EEFILE) (t maxSize0 : Nat) : EEFILE × Bool :=
  let maxSize := maxSize0 % 65536
  if EEFILE_MAX_FILES ≤ s.files.length then (s, false)
  else if (s.findFileIndex t).isSome then (s, false)
  else
    let nextAddr := s.calculateNextAddr
    let actualSize := (maxSize + 1) % 65536
    if EEFILE_TOTAL_SIZE < nextAddr + actualSize then (s, false)
    else
      let f : FileMetadata :=
        { type := t, maxSize := maxSize, startAddr := nextAddr,
          endAddr := (nextAddr + actualSize + 65535) % 65536,
          dataLen := 0, enabled := true, modified := false }
      ({ s with files := s.files ++ [f] }, true)

/-- `EEFILE::write`. Returns the updated table, the updated device and the
success flag. `length0` is the `uint16_t` parameter. -/
def EEFILE.write (s : EEFILE) (d : Device) (t : Nat) (data : List Nat) (length0 : Nat) :
    EEFILE × Device × Bool :=
  let length := length0 % 65536
  if !s.is_enabled then (s, d, false)
  else
    match s.findFileIndex t with
    | none => (s, d, false)
    | some idx =>
      let f := s.files.getD idx dfile
      if !f.enabled then (s, d, false)
      else if f.maxSize < length then (s, d, false)
      else
        let address := f.startAddr
        let dataAddr := (address + 1) % 65536
        let d1 := writeByte d address 0x01
        let d2 := writeData dataAddr data length d1 0
        let d3 := writeFill dataAddr (f.maxSize - length) d2 length
        ({ s with files := s.files.set idx { f with dataLen := length, modified := true } },
         d3, true)

/-- `EEFILE::read`. `some buf` models a `true` return with `buf` the bytes
copied into the caller's buffer (exactly `readLen` of them); `none` models a
`false` return, which copies nothing. -/
def EEFILE.read (s : EEFILE) (d : Device) (t : Nat) (length0 : Nat) : Option (List Nat) :=
  let length := length0 % 65536
  if !s.is_enabled then none
  else
    match s.findFileIndex t with
    | none => none
    | some idx =>
      let f := s.files.getD idx dfile
      if !f.enabled then none
      else
        let address := f.startAddr
        let dataAddr := (address + 1) % 65536
        let validMarker := d address
        if validMarker ≠ 0x01 then none
        else
          let readLen := if length < f.dataLen then length else f.dataLen
          some ((List.range readLen).map (fun i => d (dataAddr + i)))

/-- `EEFILE::erase`: writes `0x00` over the marker byte and resets the
in-memory metadata. Note the source checks only `is_enabled` and the index
lookup; it does not consult the per-record `enabled` flag. -/
def EEFILE.erase (s : EEFILE) (d : Device) (t : Nat) : EEFILE × Device × Bool :=
  if !s.is_enabled then (s, d, false)
  else
    match s.findFileIndex t with
    | none => (s, d, false)
    | some idx =>
      let f := s.files.getD idx dfile
      let d1 := writeByte d f.startAddr 0x00
      ({ s with files := s.files.set idx { f with dataLen := 0, modified := false } },
       d1, true)

/-- `EEFILE::setFileEnabled`. -/
def EEFILE.setFileEnabled (s : EEFILE) (t : Nat) (enabled : Bool) : EEFILE :=
  match s.findFileIndex t with
  | none => s
  | some idx =>
    let f := s.files.getD idx dfile
    { s with files := s.files.set idx { f with enabled := enabled } }

/-- `EEFILE::isFileEnabled`. -/
def EEFILE.isFileEnabled (s : EEFILE) (t : Nat) : Bool :=
  match s.findFileIndex t with
  | none => false
  | some idx => (s.files.getD idx dfile).enabled

/-- `EEFILE::getFileDataLen`. -/
def EEFILE.getFileDataLen (s : EEFILE) (t : Nat) : Nat :=
  match s.findFileIndex t with
  | none => 0
  | some idx => (s.files.getD idx dfile).dataLen

/-- `EEFILE::isFileModified`. -/
def EEFILE.isFileModified (s : EEFILE) (t : Nat) : Bool :=
  match s.findFileIndex t with
  | none => false
  | some idx => (s.files.getD idx dfile).modified

/-- `EEFILE::clearModifiedFlag`. -/
def EEFILE.clearModifiedFlag (s : EEFILE) (t : Nat) : EEFILE :=
  match s.findFileIndex t with
  | none => s
  | some idx =>
    let f := s.files.getD idx dfile
    { s with files := s.files.set idx { f with modified := false } }

/-- `EEFILE::isFileValid`: a direct device read of the marker byte compared
to `0x01`; unknown identifiers report `false`. -/
def EEFILE.isFileValid (s : EEFILE) (d : Device) (t : Nat) : Bool :=
  match s.findFileIndex t with
  | none => false
  | some idx => d ((s.files.getD idx dfile).startAddr) == 0x01

/-- `EEFILE::setFileValid`: writes `0x01` or `0x00` to the marker byte;
only the device changes, the descriptor table is untouched. -/
def EEFILE.setFileValid (s : EEFILE) (d : Device) (t : Nat) (valid : Bool) : Device :=
  match s.findFileIndex t with
  | none => d
  | some idx =>
    writeByte d ((s.files.getD idx dfile).startAddr) (if valid then 0x01 else 0x00)

/-- `EEFILE::getFileAddr`. -/
def EEFILE.getFileAddr (s : EEFILE) (t : Nat) : Nat :=
  match s.findFileIndex t with
  | none => 0
  | some idx => (s.files.getD idx dfile).startAddr

/-- A sequence of `registerAuto` calls, in order (as in the demo sketch). -/
def registerAll (s : EEFILE) : List (Nat × Nat) → EEFILE
  | [] => s
  | (t, sz) :: rest => registerAll (s.registerAuto t sz).1 rest

/-- The address one past the region used so far, starting the scan at `a`:
the functional reading of the allocator's running cursor. -/
def nextFree : Nat → List FileMetadata → Nat
  | a, [] => a
  | _, f :: rest => nextFree (f.endAddr + 1) rest

/-- The layout invariant of the descriptor table: starting at address `a`,
each record starts where told, its end address is `startAddr + maxSize`,
it fits below the region size, and the next record follows at `endAddr + 1`. -/
def contiguousFrom : Nat → List FileMetadata → Prop
  | _, [] => True
  | a, f :: rest =>
      f.startAddr = a ∧ f.endAddr = f.startAddr + f.maxSize ∧
        f.endAddr < EEFILE_TOTAL_SIZE ∧ contiguousFrom (f.endAddr + 1) rest

/-! Concrete states used by the witnesses below. -/

def wS : EEFILE := (emptyStore.registerAuto 0 4).1
def wD : Device := fun _ => 0
def wW : EEFILE × Device × Bool := wS.write wD 0 [17, 42] 2
def wS6 : EEFILE := wW.1
def wD6 : Device := wW.2.1
def s2dis : EEFILE := EEFILE.setFileEnabled (emptyStore.registerAuto 0 4).1 0 false
def dOnes : Device := fun _ => 1
def demoStore : EEFILE := registerAll emptyStore [(0, 1), (1, 4), (2, 16)]
def demoW : EEFILE × Device × Bool := EEFILE.write demoStore (fun _ => 0) 0 [0x42] 1
def demoD : Device := EEFILE.setFileValid demoW.1 demoW.2.1 0 true
def sOv1 : EEFILE := (emptyStore.registerAuto 0 65535).1
def sOv2 : EEFILE := (sOv1.registerAuto 1 0).1

example : (emptyStore.registerAuto 0 1).2 = true := by decide

example :
    (registerAll emptyStore [(0, 1), (1, 4), (2, 16)]).files.map
      (fun f => (f.startAddr, f.endAddr)) = [(0, 1), (2, 6), (7, 23)] := by decide

example : (emptyStore.registerAuto 0 65535).2 = true := by decide

/-! ### Helper lemmas about the device loops -/

theorem writeByte_at (d : Device) (addr v : Nat) : writeByte d addr v addr = v % 256 := by
  simp [writeByte]

theorem writeByte_ne (d : Device) (addr v a : Nat) (h : a ≠ addr) :
    writeByte d addr v a = d a := by
  simp [writeByte, h]

theorem writeData_ne (base : Nat) (data : List Nat) :
    ∀ (k : Nat) (d : Device) (i a : Nat),
      (∀ j, i ≤ j → j < i + k → a ≠ base + j) → writeData base data k d i a = d a := by
  intro k
  induction k with
  | zero => intro d i a _; rfl
  | succ n ih =>
    intro d i a h
    rw [writeData, ih _ _ _ (fun j h1 h2 => h j (by omega) (by omega))]
    exact writeByte_ne _ _ _ _ (h i (Nat.le_refl i) (by omega))

theorem writeData_at (base : Nat) (data : List Nat) :
    ∀ (k : Nat) (d : Device) (i j : Nat), i ≤ j → j < i + k →
      writeData base data k d i (base + j) = data.getD j 0 % 256 := by
  intro k
  induction k with
  | zero => intro d i j h1 h2; omega
  | succ n ih =>
    intro d i j h1 h2
    rw [writeData]
    rcases Nat.eq_or_lt_of_le h1 with h | h
    · subst h
      rw [writeData_ne _ _ _ _ _ _ (fun j' hj1 hj2 h' => by omega)]
      exact writeByte_at _ _ _
    · exact ih _ (i + 1) j h (by omega)

theorem writeFill_ne (base : Nat) :
    ∀ (k : Nat) (d : Device) (i a : Nat),
      (∀ j, i ≤ j → j < i + k → a ≠ base + j) → writeFill base k d i a = d a := by
  intro k
  induction k with
  | zero => intro d i a _; rfl
  | succ n ih =>
    intro d i a h
    rw [writeFill, ih _ _ _ (fun j h1 h2 => h j (by omega) (by omega))]
    exact writeByte_ne _ _ _ _ (h i (Nat.le_refl i) (by omega))

theorem writeFill_at (base : Nat) :
    ∀ (k : Nat) (d : Device) (i j : Nat), i ≤ j → j < i + k →
      writeFill base k d i (base + j) = 0xFF := by
  intro k
  induction k with
  | zero => intro d i j h1 h2; omega
  | succ n ih =>
    intro d i j h1 h2
    rw [writeFill]
    rcases Nat.eq_or_lt_of_le h1 with h | h
    · subst h
      rw [writeFill_ne _ _ _ _ _ (fun j' hj1 hj2 h' => by omega)]
      exact writeByte_at _ _ _
    · exact ih _ (i + 1) j h (by omega)

/-! ### Helper lemmas about the descriptor table -/

theorem findIdxAux_lt (t : Nat) :
    ∀ (l : List FileMetadata) (i : Nat), findIdxAux t l = some i → i < l.length := by
  intro l
  induction l with
  | nil => intro i h; simp [findIdxAux] at h
  | cons f rest ih =>
    intro i h
    by_cases hf : f.type = t
    · simp [findIdxAux, hf] at h
      simp only [List.length_cons]
      omega
    · simp [findIdxAux, hf] at h
      obtain ⟨i', hi', rfl⟩ := h
      have := ih i' hi'
      simp only [List.length_cons]
      omega

theorem findIdxAux_type (t : Nat) :
    ∀ (l : List FileMetadata) (i : Nat), findIdxAux t l = some i →
      (l.getD i dfile).type = t := by
  intro l
  induction l with
  | nil => intro i h; simp [findIdxAux] at h
  | cons f rest ih =>
    intro i h
    by_cases hf : f.type = t
    · simp [findIdxAux, hf] at h
      subst h; simpa using hf
    · simp [findIdxAux, hf] at h
      obtain ⟨i', hi', rfl⟩ := h
      simpa using ih i' hi'

theorem findIdxAux_set (t : Nat) :
    ∀ (l : List FileMetadata) (i : Nat) (f : FileMetadata),
      f.type = (l.getD i dfile).type → findIdxAux t (l.set i f) = findIdxAux t l := by
  intro l
  induction l with
  | nil => intro i f _; rfl
  | cons g rest ih =>
    intro i f hty
    cases i with
    | zero =>
      simp only [List.getD_cons_zero] at hty
      simp only [List.set_cons_zero, findIdxAux, hty]
    | succ i' =>
      simp only [List.getD_cons_succ] at hty
      simp only [List.set_cons_succ, findIdxAux, ih i' f hty]

theorem getD_set_self :
    ∀ (l : List FileMetadata) (i : Nat) (f : FileMetadata), i < l.length →
      (l.set i f).getD i dfile = f := by
  intro l
  induction l with
  | nil => intro i f h; simp at h
  | cons g rest ih =>
    intro i f h
    cases i with
    | zero => rfl
    | succ i' =>
      simp only [List.set_cons_succ, List.getD_cons_succ]
      exact ih i' f (by simpa using Nat.lt_of_succ_lt_succ h)

theorem getD_set_ne :
    ∀ (l : List FileMetadata) (i j : Nat) (f : FileMetadata), j ≠ i →
      (l.set i f).getD j dfile = l.getD j dfile := by
  intro l
  induction l with
  | nil => intro i j f _; rfl
  | cons g rest ih =>
    intro i j f h
    cases i with
    | zero =>
      cases j with
      | zero => omega
      | succ j' => rfl
    | succ i' =>
      cases j with
      | zero => rfl
      | succ j' =>
        simp only [List.set_cons_succ, List.getD_cons_succ]
        exact ih i' j' f (by omega)

theorem set_getD_self :
    ∀ (l : List FileMetadata) (i : Nat), i < l.length →
      l.set i (l.getD i dfile) = l := by
  intro l
  induction l with
  | nil => intro i h; simp at h
  | cons g rest ih =>
    intro i h
    cases i with
    | zero => rfl
    | succ i' =>
      simp only [List.set_cons_succ, List.getD_cons_succ]
      rw [ih i' (by simpa using Nat.lt_of_succ_lt_succ h)]

/-! ### Unfolding lemmas for the successful paths of write, read and erase -/

theorem write_eq (s : EEFILE) (d : Device) (t idx : Nat) (data : List Nat) (len : Nat)
    (hen : s.is_enabled = true) (hidx : s.findFileIndex t = some idx)
    (hfe : (s.files.getD idx dfile).enabled = true)
    (hlen : len ≤ (s.files.getD idx dfile).maxSize) (hl : len < 65536) :
    s.write d t data len =
      ({ s with files := (s.files.set idx
          ({ s.files.getD idx dfile with dataLen := len, modified := true })) },
       writeFill (((s.files.getD idx dfile).startAddr + 1) % 65536)
         ((s.files.getD idx dfile).maxSize - len)
         (writeData (((s.files.getD idx dfile).startAddr + 1) % 65536) data len
           (writeByte d (s.files.getD idx dfile).startAddr 0x01) 0)
         len,
       true) := by
  unfold EEFILE.write
  rw [Nat.mod_eq_of_lt hl, hen, hidx]
  simp only [Bool.not_true, Bool.false_eq_true, if_false]
  rw [hfe]
  simp only [Bool.not_true, Bool.false_eq_true, if_false]
  rw [if_neg (Nat.not_lt.mpr hlen)]

theorem read_eq (s : EEFILE) (d : Device) (t idx len : Nat)
    (hen : s.is_enabled = true) (hidx : s.findFileIndex t = some idx)
    (hfe : (s.files.getD idx dfile).enabled = true)
    (hm : d ((s.files.getD idx dfile).startAddr) = 0x01) (hl : len < 65536) :
    s.read d t len =
      some ((List.range
          (if len < (s.files.getD idx dfile).dataLen then len
           else (s.files.getD idx dfile).dataLen)).map
        (fun i => d (((s.files.getD idx dfile).startAddr + 1) % 65536 + i))) := by
  unfold EEFILE.read
  rw [Nat.mod_eq_of_lt hl, hen, hidx]
  simp only [Bool.not_true, Bool.false_eq_true, if_false]
  rw [hfe]
  simp only [Bool.not_true, Bool.false_eq_true, if_false]
  rw [hm]
  simp

theorem setFileEnabled_eq (s : EEFILE) (t idx : Nat) (b : Bool)
    (hidx : s.findFileIndex t = some idx) :
    s.setFileEnabled t b =
      { s with files := (s.files.set idx
          ({ s.files.getD idx dfile with enabled := b })) } := by
  unfold EEFILE.setFileEnabled
  rw [hidx]

theorem erase_eq (s : EEFILE) (d : Device) (t idx : Nat)
    (hen : s.is_enabled = true) (hidx : s.findFileIndex t = some idx) :
    s.erase d t =
      ({ s with files := (s.files.set idx
          ({ s.files.getD idx dfile with dataLen := 0, modified := false })) },
       writeByte d ((s.files.getD idx dfile).startAddr) 0x00,
       true) := by
  unfold EEFILE.erase
  rw [hen, hidx]
  simp only [Bool.not_true, Bool.false_eq_true, if_false]

/-- After the three device phases of a successful write, the marker byte
still holds `0x01`: no payload or padding address collides with it. -/
theorem write_dev_marker (sa ms len : Nat) (data : List Nat) (d : Device)
    (hms : ms < 65536) (hlen : len ≤ ms) :
    writeFill ((sa + 1) % 65536) (ms - len)
      (writeData ((sa + 1) % 65536) data len (writeByte d sa 0x01) 0) len sa = 0x01 := by
  rw [writeFill_ne _ _ _ _ _ (fun j h1 h2 => by omega),
      writeData_ne _ _ _ _ _ _ (fun j h1 h2 => by omega)]
  exact writeByte_at _ _ _

/-- Payload bytes after a successful write. -/
theorem write_dev_data (sa ms len : Nat) (data : List Nat) (d : Device) (i : Nat)
    (hi : i < len) :
    writeFill ((sa + 1) % 65536) (ms - len)
      (writeData ((sa + 1) % 65536) data len (writeByte d sa 0x01) 0) len
      ((sa + 1) % 65536 + i) = data.getD i 0 % 256 := by
  rw [writeFill_ne _ _ _ _ _ (fun j h1 h2 => by omega)]
  exact writeData_at _ data len _ 0 i (Nat.zero_le i) (by omega)

/-- Padding bytes after a successful write. -/
theorem write_dev_fill (sa ms len : Nat) (data : List Nat) (d : Device) (i : Nat)
    (hi1 : len ≤ i) (hi2 : i < ms) :
    writeFill ((sa + 1) % 65536) (ms - len)
      (writeData ((sa + 1) % 65536) data len (writeByte d sa 0x01) 0) len
      ((sa + 1) % 65536 + i) = 0xFF :=
  writeFill_at _ _ _ len i hi1 (by omega)

/-- Any address untouched by a successful write keeps its old value. -/
theorem write_dev_out (sa ms len : Nat) (data : List Nat) (d : Device) (a : Nat)
    (hlen : len ≤ ms) (hne : a ≠ sa) (h : ∀ j, j < ms → a ≠ (sa + 1) % 65536 + j) :
    writeFill ((sa + 1) % 65536) (ms - len)
      (writeData ((sa + 1) % 65536) data len (writeByte d sa 0x01) 0) len a = d a := by
  rw [writeFill_ne _ _ _ _ _ (fun j h1 h2 => h j (by omega)),
      writeData_ne _ _ _ _ _ _ (fun j h1 h2 => h j (by omega))]
  exact writeByte_ne _ _ _ _ hne

/-! ### The allocator's layout invariant -/

theorem nextFree_last :
    ∀ (l : List FileMetadata) (a : Nat), l ≠ [] →
      nextFree a l = (l.getD (l.length - 1) dfile).endAddr + 1 := by
  intro l
  induction l with
  | nil => intro a h; exact absurd rfl h
  | cons f rest ih =>
    intro a _
    by_cases hr : rest = []
    · subst hr
      rfl
    · show nextFree (f.endAddr + 1) rest = _
      rw [ih (f.endAddr + 1) hr]
      obtain ⟨n, hn⟩ := Nat.exists_eq_succ_of_ne_zero
        (fun h => hr (List.eq_nil_of_length_eq_zero h))
      simp only [List.length_cons, Nat.add_sub_cancel]
      rw [hn]
      simp only [Nat.add_sub_cancel, List.getD_cons_succ, Nat.succ_sub_one]

theorem contiguousFrom_endAddr :
    ∀ (l : List FileMetadata) (a : Nat), contiguousFrom a l →
      ∀ n, n < l.length →
        (l.getD n dfile).endAddr = (l.getD n dfile).startAddr + (l.getD n dfile).maxSize ∧
        (l.getD n dfile).endAddr < EEFILE_TOTAL_SIZE := by
  intro l
  induction l with
  | nil => intro a _ n hn; simp at hn
  | cons f rest ih =>
    intro a h n hn
    obtain ⟨h1, h2, h3, h4⟩ := h
    cases n with
    | zero => exact ⟨h2, h3⟩
    | succ n' =>
      simp only [List.getD_cons_succ]
      exact ih (f.endAddr + 1) h4 n' (by simpa using Nat.lt_of_succ_lt_succ hn)

theorem contiguousFrom_head :
    ∀ (l : List FileMetadata) (a : Nat), contiguousFrom a l → 0 < l.length →
      (l.getD 0 dfile).startAddr = a := by
  intro l
  cases l with
  | nil => intro a _ h; simp at h
  | cons f rest => intro a h _; exact h.1

theorem contiguousFrom_succ :
    ∀ (l : List FileMetadata) (a : Nat), contiguousFrom a l →
      ∀ n, n + 1 < l.length →
        (l.getD (n + 1) dfile).startAddr = (l.getD n dfile).endAddr + 1 := by
  intro l
  induction l with
  | nil => intro a _ n hn; simp at hn
  | cons f rest ih =>
    intro a h n hn
    obtain ⟨h1, h2, h3, h4⟩ := h
    cases n with
    | zero =>
      simp only [List.getD_cons_succ, List.getD_cons_zero]
      exact contiguousFrom_head rest (f.endAddr + 1) h4
        (by simpa using Nat.lt_of_succ_lt_succ hn)
    | succ n' =>
      simp only [List.getD_cons_succ]
      exact ih (f.endAddr + 1) h4 n' (by simpa using Nat.lt_of_succ_lt_succ hn)

theorem contiguousFrom_lb :
    ∀ (l : List FileMetadata) (a : Nat), contiguousFrom a l →
      ∀ n, n < l.length → a ≤ (l.getD n dfile).startAddr := by
  intro l
  induction l with
  | nil => intro a _ n hn; simp at hn
  | cons f rest ih =>
    intro a h n hn
    obtain ⟨h1, h2, h3, h4⟩ := h
    cases n with
    | zero => exact Nat.le_of_eq h1.symm
    | succ n' =>
      simp only [List.getD_cons_succ]
      have := ih (f.endAddr + 1) h4 n' (by simpa using Nat.lt_of_succ_lt_succ hn)
      omega

theorem contiguousFrom_disjoint :
    ∀ (l : List FileMetadata) (a : Nat), contiguousFrom a l →
      ∀ i j, i < j → j < l.length →
        (l.getD i dfile).endAddr < (l.getD j dfile).startAddr := by
  intro l
  induction l with
  | nil => intro a _ i j _ hj; simp at hj
  | cons f rest ih =>
    intro a h i j hij hj
    obtain ⟨h1, h2, h3, h4⟩ := h
    cases j with
    | zero => omega
    | succ j' =>
      cases i with
      | zero =>
        simp only [List.getD_cons_zero, List.getD_cons_succ]
        have := contiguousFrom_lb rest (f.endAddr + 1) h4 j'
          (by simpa using Nat.lt_of_succ_lt_succ hj)
        omega
      | succ i' =>
        simp only [List.getD_cons_succ]
        exact ih (f.endAddr + 1) h4 i' j' (by omega)
          (by simpa using Nat.lt_of_succ_lt_succ hj)

theorem contiguousFrom_append :
    ∀ (l : List FileMetadata) (a : Nat) (f : FileMetadata), contiguousFrom a l →
      f.startAddr = nextFree a l → f.endAddr = f.startAddr + f.maxSize →
      f.endAddr < EEFILE_TOTAL_SIZE → contiguousFrom a (l ++ [f]) := by
  intro l
  induction l with
  | nil =>
    intro a f _ hs he hlt
    exact ⟨hs, he, hlt, trivial⟩
  | cons g rest ih =>
    intro a f h hs he hlt
    obtain ⟨h1, h2, h3, h4⟩ := h
    exact ⟨h1, h2, h3, ih (g.endAddr + 1) f h4 hs he hlt⟩

/-- For a table satisfying the invariant, the allocator's `% 65536` never
truncates: the next free address is exactly one past the last end address. -/
theorem calculateNextAddr_eq (s : EEFILE) (h : contiguousFrom 0 s.files) :
    s.calculateNextAddr = nextFree 0 s.files := by
  unfold EEFILE.calculateNextAddr
  by_cases hnil : s.files = []
  · rw [if_pos (by rw [hnil]; rfl), hnil]
    rfl
  · rw [if_neg (fun hz => hnil (List.eq_nil_of_length_eq_zero hz))]
    rw [nextFree_last s.files 0 hnil]
    have hlast := contiguousFrom_endAddr s.files 0 h (s.files.length - 1)
      (by
        have : 0 < s.files.length := List.length_pos.mpr hnil
        omega)
    have : (s.files.getD (s.files.length - 1) dfile).endAddr + 1 < 65536 := by
      have h2 := hlast.2
      unfold EEFILE_TOTAL_SIZE EEFILE_SECTOR_SIZE EEFILE_NUM_SECTORS at h2
      omega
    exact Nat.mod_eq_of_lt this

/-- The bound on the free cursor maintained by the invariant. -/
theorem nextFree_le :
    ∀ (l : List FileMetadata) (a : Nat), contiguousFrom a l →
      a ≤ EEFILE_TOTAL_SIZE → nextFree a l ≤ EEFILE_TOTAL_SIZE := by
  intro l
  induction l with
  | nil => intro a _ ha; exact ha
  | cons f rest ih =>
    intro a h ha
    obtain ⟨h1, h2, h3, h4⟩ := h
    exact ih (f.endAddr + 1) h4 h3

/-- `registerAuto` preserves the layout invariant whenever the requested
size, as a `uint16`, is at most 65534 (so `maxSize + 1` does not wrap). -/
theorem registerAuto_inv (s : EEFILE) (t sz : Nat) (hsz : sz % 65536 < 65535)
    (h : contiguousFrom 0 s.files) :
    contiguousFrom 0 (s.registerAuto t sz).1.files := by
  simp only [EEFILE.registerAuto]
  by_cases hA : EEFILE_MAX_FILES ≤ s.files.length
  · rw [if_pos hA]
    exact h
  · rw [if_neg hA]
    by_cases hB : (s.findFileIndex t).isSome = true
    · rw [if_pos hB]
      exact h
    · rw [if_neg hB]
      by_cases hC : EEFILE_TOTAL_SIZE < s.calculateNextAddr + (sz % 65536 + 1) % 65536
      · rw [if_pos hC]
        exact h
      · rw [if_neg hC]
        show contiguousFrom 0 (s.files ++ [_])
        have hca := calculateNextAddr_eq s h
        have hle : nextFree 0 s.files ≤ EEFILE_TOTAL_SIZE :=
          nextFree_le s.files 0 h (Nat.zero_le _)
        have htot : EEFILE_TOTAL_SIZE = 512 := rfl
        refine contiguousFrom_append s.files 0 _ h ?_ ?_ ?_
        · show s.calculateNextAddr = nextFree 0 s.files
          exact hca
        · show (s.calculateNextAddr + (sz % 65536 + 1) % 65536 + 65535) % 65536 =
            s.calculateNextAddr + sz % 65536
          omega
        · show (s.calculateNextAddr + (sz % 65536 + 1) % 65536 + 65535) % 65536 <
            EEFILE_TOTAL_SIZE
          rw [htot]
          omega

/-- The invariant holds for every table reached by a sequence of
registrations with non-wrapping sizes, starting from the empty store. -/
theorem registerAll_inv :
    ∀ (L : List (Nat × Nat)) (s : EEFILE), (∀ p ∈ L, p.2 % 65536 < 65535) →
      contiguousFrom 0 s.files → contiguousFrom 0 (registerAll s L).files := by
  intro L
  induction L with
  | nil => intro s _ h; exact h
  | cons p rest ih =>
    intro s hL h
    obtain ⟨t, sz⟩ := p
    exact ih (s.registerAuto t sz).1 (fun q hq => hL q (List.mem_cons_of_mem _ hq))
      (registerAuto_inv s t sz (hL (t, sz) (List.mem_cons_self _ _)) h)

/-! ### Claim theorems -/

/-- C3: the claim states that every record admitted by `registerAuto` has
`endAddr < EEFILE_TOTAL_SIZE` for every `uint16` `maxSize`, the bound being
checked before the descriptor is appended. The code violates it: with
`maxSize = 0xFFFF` the `uint16` expression `actualSize = maxSize + 1` wraps
to 0, the space check `nextAddr + actualSize > EEFILE_TOTAL_SIZE` passes
vacuously, and a record with `endAddr = 0xFFFF ≥ 512` is admitted. -/
theorem register_overflow_bug :
    (emptyStore.registerAuto 0 65535).2 = true ∧
    ((emptyStore.registerAuto 0 65535).1.files.getD 0 dfile).endAddr = 65535 ∧
    ¬ ((emptyStore.registerAuto 0 65535).1.files.getD 0 dfile).endAddr < EEFILE_TOTAL_SIZE := by
  decide

/-- C5 counterexample: at `maxPayloadSize = 0xFFFF` on the empty store the
claimed check (c) fails — `startAddress + maxPayloadSize + 1 = 65536`
exceeds the 512-byte region (`calculateNextAddr` is 0 here) — yet
`registerAuto` does not return failure with the table unchanged: it returns
success and appends a descriptor, because the `uint16` wrap of
`actualSize = maxSize + 1` makes the code evaluate a different condition. -/
theorem register_failure_frame_cex :
    emptyStore.calculateNextAddr = 0 ∧
    EEFILE_TOTAL_SIZE < 0 + 65535 + 1 ∧
    emptyStore.registerAuto 0 65535 ≠ (emptyStore, false) ∧
    (emptyStore.registerAuto 0 65535).2 = true ∧
    emptyStore.files.length = 0 ∧
    (emptyStore.registerAuto 0 65535).1.files.length = 1 := by
  decide

/-- C5 (amended): `registerAuto` performs its checks in the order (a) table
not at capacity, (b) identifier not already present, (c) the `uint16`
computed requirement `nextAddr + ((maxPayloadSize + 1) mod 2^16)` does not
exceed the total region size — which coincides with the claimed
`startAddress + maxPayloadSize + 1 ≤ totalRegionSize` for every
`maxPayloadSize ≤ 65534` but passes vacuously at `maxPayloadSize = 0xFFFF`;
whenever any of these checks fails, `registerAuto` reports failure and
returns the state completely unchanged (all descriptors, their addresses,
and the file count). -/
theorem register_failure_frame (s : EEFILE) (t sz : Nat)
    (h : EEFILE_MAX_FILES ≤ s.files.length ∨ (s.findFileIndex t).isSome = true ∨
         EEFILE_TOTAL_SIZE < s.calculateNextAddr + (sz % 65536 + 1) % 65536) :
    s.registerAuto t sz = (s, false) := by
  simp only [EEFILE.registerAuto]
  by_cases hA : EEFILE_MAX_FILES ≤ s.files.length
  · rw [if_pos hA]
  · rw [if_neg hA]
    by_cases hB : (s.findFileIndex t).isSome = true
    · rw [if_pos hB]
    · rw [if_neg hB]
      have hC : EEFILE_TOTAL_SIZE < s.calculateNextAddr + (sz % 65536 + 1) % 65536 := by
        rcases h with h | h | h
        · exact absurd h hA
        · exact absurd h hB
        · exact h
      rw [if_pos hC]

/-- C5 witness: registering a record that does not fit in the empty 512-byte
region fails and leaves the store untouched. -/
theorem register_failure_frame_w : emptyStore.registerAuto 0 600 = (emptyStore, false) :=
  register_failure_frame emptyStore 0 600 (Or.inr (Or.inr (by decide)))

/-- C9: for a registered record, `setFileValid true` followed by
`isFileValid` yields `true` and `setFileValid false` yields `false`, for any
prior device state; `setFileValid` touches no device byte other than the
marker byte (and returns only a device, so it cannot change `dataLen`); and
`isFileValid` on an unknown identifier returns `false`. -/
theorem validity_semantics (s : EEFILE) (d : Device) (t idx : Nat)
    (hidx : s.findFileIndex t = some idx) :
    EEFILE.isFileValid s (s.setFileValid d t true) t = true ∧
    EEFILE.isFileValid s (s.setFileValid d t false) t = false ∧
    (∀ b a, a ≠ (s.files.getD idx dfile).startAddr → s.setFileValid d t b a = d a) ∧
    (∀ u, s.findFileIndex u = none → EEFILE.isFileValid s d u = false) := by
  refine ⟨?_, ?_, ?_, ?_⟩
  · unfold EEFILE.isFileValid EEFILE.setFileValid
    rw [hidx]
    simp [writeByte_at]
  · unfold EEFILE.isFileValid EEFILE.setFileValid
    rw [hidx]
    simp [writeByte_at]
  · intro b a ha
    unfold EEFILE.setFileValid
    rw [hidx]
    exact writeByte_ne _ _ _ _ ha
  · intro u hu
    unfold EEFILE.isFileValid
    rw [hu]

/-- C9 witness at a concrete registered record and device. -/
theorem validity_semantics_w :
    EEFILE.isFileValid wS (wS.setFileValid wD 0 true) 0 = true ∧
    EEFILE.isFileValid wS (wS.setFileValid wD 0 false) 0 = false ∧
    (∀ b a, a ≠ (wS.files.getD 0 dfile).startAddr → wS.setFileValid wD 0 b a = wD a) ∧
    (∀ u, wS.findFileIndex u = none → EEFILE.isFileValid wS wD u = false) :=
  validity_semantics wS wD 0 0 (by decide)

/-- C2 counterexample: `s2dis` holds one registered record (type 0) whose
per-record `enabled` flag is `false`, with marker byte `0x01` on the device.
The claim says `erase` on a disabled record fails and leaves the stored bytes
and validity state unchanged; the code's `erase` never consults the
per-record flag, so it succeeds, overwrites the marker with `0x00` and flips
`isFileValid` from `true` to `false`. -/
theorem record_disable_cex :
    EEFILE.isFileEnabled s2dis 0 = false ∧
    (EEFILE.erase s2dis dOnes 0).2.2 = true ∧
    (EEFILE.erase s2dis dOnes 0).2.1 0 = 0 ∧
    dOnes 0 = 1 ∧
    EEFILE.isFileValid s2dis dOnes 0 = true ∧
    EEFILE.isFileValid s2dis ((EEFILE.erase s2dis dOnes 0).2.1) 0 = false := by
  decide

/-- C2 (amended): disabling a registered record makes `write` and `read`
fail while changing nothing (state and device are returned untouched), and
re-enabling restores the original store exactly; `erase`, however, checks
only the store-level flag and the identifier, so on a disabled record it
still succeeds and writes `0x00` over the marker byte. -/
theorem record_disable_semantics (s : EEFILE) (d : Device) (t idx : Nat) (data : List Nat)
    (len : Nat)
    (hidx : s.findFileIndex t = some idx)
    (hfe : (s.files.getD idx dfile).enabled = true)
    (hsen : s.is_enabled = true) :
    EEFILE.write (s.setFileEnabled t false) d t data len = (s.setFileEnabled t false, d, false) ∧
    EEFILE.read (s.setFileEnabled t false) d t len = none ∧
    (EEFILE.erase (s.setFileEnabled t false) d t).2.2 = true ∧
    (EEFILE.erase (s.setFileEnabled t false) d t).2.1 =
      writeByte d ((s.files.getD idx dfile).startAddr) 0x00 ∧
    EEFILE.setFileEnabled (s.setFileEnabled t false) t true = s := by
  have hidx_lt : idx < s.files.length := findIdxAux_lt t s.files idx hidx
  have hsd := setFileEnabled_eq s t idx false hidx
  have hidx' : (s.setFileEnabled t false).findFileIndex t = some idx := by
    rw [hsd]
    exact (findIdxAux_set t s.files idx
      ({ s.files.getD idx dfile with enabled := false }) rfl).trans hidx
  have hget : (s.setFileEnabled t false).files.getD idx dfile =
      { s.files.getD idx dfile with enabled := false } := by
    rw [hsd]
    exact getD_set_self s.files idx _ hidx_lt
  have hen' : (s.setFileEnabled t false).is_enabled = true := by
    rw [hsd]
    exact hsen
  have hget2 : (s.setFileEnabled t false).files[idx]?.getD dfile =
      ({ s.files.getD idx dfile with enabled := false } : FileMetadata) := by
    rw [← List.getD_eq_getElem?_getD]
    exact hget
  refine ⟨?_, ?_, ?_, ?_, ?_⟩
  · simp [EEFILE.write, hen', hidx']
    intro h
    rw [hget2] at h
    simp at h
  · simp [EEFILE.read, hen', hidx']
    intro h
    rw [hget2] at h
    simp at h
  · rw [erase_eq _ d t idx hen' hidx']
  · rw [erase_eq _ d t idx hen' hidx', hget]
  · rw [setFileEnabled_eq _ t idx true hidx', hget, hsd]
    dsimp only
    rw [List.set_set]
    have hfeq : ({ ({ s.files.getD idx dfile with enabled := false } : FileMetadata) with
        enabled := true } : FileMetadata) = s.files.getD idx dfile := by
      generalize hgf : s.files.getD idx dfile = f0 at hfe
      cases f0 with
      | mk ty ms sa ea dl en mo =>
        simp only [] at hfe
        rw [hfe]
    rw [hfeq, set_getD_self s.files idx hidx_lt]

/-- C2 witness: a concrete enabled record that is disabled, exercised, and
re-enabled. -/
theorem record_disable_semantics_w :
    EEFILE.write (wS.setFileEnabled 0 false) wD 0 [9] 1 =
      (wS.setFileEnabled 0 false, wD, false) ∧
    EEFILE.read (wS.setFileEnabled 0 false) wD 0 1 = none ∧
    (EEFILE.erase (wS.setFileEnabled 0 false) wD 0).2.2 = true ∧
    (EEFILE.erase (wS.setFileEnabled 0 false) wD 0).2.1 =
      writeByte wD ((wS.files.getD 0 dfile).startAddr) 0x00 ∧
    EEFILE.setFileEnabled (wS.setFileEnabled 0 false) 0 true = wS :=
  record_disable_semantics wS wD 0 0 [9] 1 (by decide) (by decide) (by decide)

/-- C1: on a registered, enabled record of an enabled store, writing any
payload of length at most `maxSize` succeeds, and an immediate read of the
same length succeeds and returns exactly the bytes written. -/
theorem write_read_roundtrip (s : EEFILE) (d : Device) (t idx : Nat) (data : List Nat)
    (len : Nat)
    (hen : s.is_enabled = true) (hidx : s.findFileIndex t = some idx)
    (hfe : (s.files.getD idx dfile).enabled = true)
    (hlen : len ≤ (s.files.getD idx dfile).maxSize)
    (hms : (s.files.getD idx dfile).maxSize < 65536)
    (hdata : ∀ i, i < len → data.getD i 0 < 256) :
    (s.write d t data len).2.2 = true ∧
    EEFILE.read (s.write d t data len).1 (s.write d t data len).2.1 t len =
      some ((List.range len).map (fun i => data.getD i 0)) := by
  have hl : len < 65536 := by omega
  have hidx_lt : idx < s.files.length := findIdxAux_lt t s.files idx hidx
  rw [write_eq s d t idx data len hen hidx hfe hlen hl]
  refine ⟨rfl, ?_⟩
  have hidx' : EEFILE.findFileIndex
      ({ s with files := (s.files.set idx
        ({ s.files.getD idx dfile with dataLen := len, modified := true })) }) t =
      some idx :=
    (findIdxAux_set t s.files idx
      ({ s.files.getD idx dfile with dataLen := len, modified := true }) rfl).trans hidx
  have hget : ({ s with files := (s.files.set idx
      ({ s.files.getD idx dfile with dataLen := len, modified := true })) } :
        EEFILE).files.getD idx dfile =
      { s.files.getD idx dfile with dataLen := len, modified := true } :=
    getD_set_self s.files idx _ hidx_lt
  have hen' : ({ s with files := (s.files.set idx
      ({ s.files.getD idx dfile with dataLen := len, modified := true })) } :
        EEFILE).is_enabled = true := hen
  have hfe' : (({ s with files := (s.files.set idx
      ({ s.files.getD idx dfile with dataLen := len, modified := true })) } :
        EEFILE).files.getD idx dfile).enabled = true := by
    rw [hget]
    exact hfe
  have hm' : (writeFill (((s.files.getD idx dfile).startAddr + 1) % 65536)
      ((s.files.getD idx dfile).maxSize - len)
      (writeData (((s.files.getD idx dfile).startAddr + 1) % 65536) data len
        (writeByte d (s.files.getD idx dfile).startAddr 0x01) 0) len)
      ((({ s with files := (s.files.set idx
        ({ s.files.getD idx dfile with dataLen := len, modified := true })) } :
          EEFILE).files.getD idx dfile).startAddr) = 0x01 := by
    rw [hget]
    exact write_dev_marker (s.files.getD idx dfile).startAddr
      (s.files.getD idx dfile).maxSize len data d hms hlen
  dsimp only
  rw [read_eq _ _ t idx len hen' hidx' hfe' hm' hl]
  rw [hget]
  simp only [Nat.lt_irrefl, if_neg]
  congr 1
  apply List.map_congr_left
  intro i hi
  have hi' : i < len := List.mem_range.mp hi
  rw [write_dev_data (s.files.getD idx dfile).startAddr
      (s.files.getD idx dfile).maxSize len data d i hi']
  exact Nat.mod_eq_of_lt (hdata i hi')

/-- C1 witness: write two bytes into a 4-byte record and read them back. -/
theorem write_read_roundtrip_w :
    (wS.write wD 0 [17, 42] 2).2.2 = true ∧
    EEFILE.read (wS.write wD 0 [17, 42] 2).1 (wS.write wD 0 [17, 42] 2).2.1 0 2 =
      some ((List.range 2).map (fun i => [17, 42].getD i 0)) :=
  write_read_roundtrip wS wD 0 0 [17, 42] 2 (by decide) (by decide) (by decide)
    (by decide) (by decide) (by decide)

/-- C6: on a registered, enabled record with marker byte `0x01`, `read`
succeeds for every requested length (a mismatch with `dataLen` is only a
diagnostic) and returns exactly `min expectedLength dataLen` bytes taken
from the device starting at `startAddr + 1` — never a payload byte beyond
`dataLen`. -/
theorem read_length_mismatch (s : EEFILE) (d : Device) (t idx len : Nat)
    (hen : s.is_enabled = true) (hidx : s.findFileIndex t = some idx)
    (hfe : (s.files.getD idx dfile).enabled = true)
    (hm : d ((s.files.getD idx dfile).startAddr) = 0x01) (hl : len < 65536) :
    s.read d t len =
      some ((List.range (min len (s.files.getD idx dfile).dataLen)).map
        (fun i => d (((s.files.getD idx dfile).startAddr + 1) % 65536 + i))) := by
  rw [read_eq s d t idx len hen hidx hfe hm hl]
  have hmin : (if len < (s.files.getD idx dfile).dataLen then len
      else (s.files.getD idx dfile).dataLen) = min len (s.files.getD idx dfile).dataLen := by
    rcases Nat.lt_or_ge len (s.files.getD idx dfile).dataLen with h | h
    · rw [if_pos h, Nat.min_eq_left (Nat.le_of_lt h)]
    · rw [if_neg (Nat.not_lt.mpr h), Nat.min_eq_right h]
  rw [hmin]

/-- C6 witness: the record written by `wW` holds 2 bytes; a read asking for
5 bytes succeeds and copies exactly `min 5 2 = 2` bytes. -/
theorem read_length_mismatch_w :
    EEFILE.read wS6 wD6 0 5 =
      some ((List.range (min 5 (wS6.files.getD 0 dfile).dataLen)).map
        (fun i => wD6 (((wS6.files.getD 0 dfile).startAddr + 1) % 65536 + i))) :=
  read_length_mismatch wS6 wD6 0 0 5 (by decide) (by decide) (by decide) (by decide)
    (by decide)

/-- C7: a successful `write` leaves marker byte `0x01` at `startAddr`, the
payload at `startAddr+1 .. startAddr+len`, `0xFF` padding on
`[startAddr+1+len, endAddr]`, and sets the descriptor's `dataLen` to the
written length and `modified` to `true`. (In the embedding, as in the
source, the marker write is the first device effect of the operation.) -/
theorem write_device_layout (s : EEFILE) (d : Device) (t idx : Nat) (data : List Nat)
    (len : Nat)
    (hen : s.is_enabled = true) (hidx : s.findFileIndex t = some idx)
    (hfe : (s.files.getD idx dfile).enabled = true)
    (hlen : len ≤ (s.files.getD idx dfile).maxSize)
    (hE : (s.files.getD idx dfile).endAddr =
      (s.files.getD idx dfile).startAddr + (s.files.getD idx dfile).maxSize)
    (hfit : (s.files.getD idx dfile).startAddr + (s.files.getD idx dfile).maxSize + 1 < 65536) :
    (s.write d t data len).2.2 = true ∧
    (s.write d t data len).2.1 ((s.files.getD idx dfile).startAddr) = 0x01 ∧
    (∀ i, i < len →
      (s.write d t data len).2.1 ((s.files.getD idx dfile).startAddr + 1 + i) =
        data.getD i 0 % 256) ∧
    (∀ a, (s.files.getD idx dfile).startAddr + 1 + len ≤ a →
      a ≤ (s.files.getD idx dfile).endAddr → (s.write d t data len).2.1 a = 0xFF) ∧
    ((s.write d t data len).1.files.getD idx dfile).dataLen = len ∧
    ((s.write d t data len).1.files.getD idx dfile).modified = true := by
  have hms : (s.files.getD idx dfile).maxSize < 65536 := by omega
  have hl : len < 65536 := by omega
  have hidx_lt : idx < s.files.length := findIdxAux_lt t s.files idx hidx
  rw [write_eq s d t idx data len hen hidx hfe hlen hl]
  refine ⟨rfl, ?_, ?_, ?_, ?_, ?_⟩
  · exact write_dev_marker _ _ len data d hms hlen
  · intro i hi
    have ha : (s.files.getD idx dfile).startAddr + 1 + i =
        ((s.files.getD idx dfile).startAddr + 1) % 65536 + i := by omega
    rw [ha]
    exact write_dev_data _ _ len data d i hi
  · intro a h1 h2
    have ha : a = ((s.files.getD idx dfile).startAddr + 1) % 65536 +
        (a - ((s.files.getD idx dfile).startAddr + 1)) := by omega
    rw [ha]
    exact write_dev_fill _ _ len data d _ (by omega) (by omega)
  · show ((s.files.set idx _).getD idx dfile).dataLen = len
    rw [getD_set_self s.files idx _ hidx_lt]
  · show ((s.files.set idx _).getD idx dfile).modified = true
    rw [getD_set_self s.files idx _ hidx_lt]

/-- C7 witness at the concrete 4-byte record of `wS`. -/
theorem write_device_layout_w :
    (wS.write wD 0 [17, 42] 2).2.2 = true ∧
    (wS.write wD 0 [17, 42] 2).2.1 ((wS.files.getD 0 dfile).startAddr) = 0x01 ∧
    (∀ i, i < 2 →
      (wS.write wD 0 [17, 42] 2).2.1 ((wS.files.getD 0 dfile).startAddr + 1 + i) =
        [17, 42].getD i 0 % 256) ∧
    (∀ a, (wS.files.getD 0 dfile).startAddr + 1 + 2 ≤ a →
      a ≤ (wS.files.getD 0 dfile).endAddr → (wS.write wD 0 [17, 42] 2).2.1 a = 0xFF) ∧
    ((wS.write wD 0 [17, 42] 2).1.files.getD 0 dfile).dataLen = 2 ∧
    ((wS.write wD 0 [17, 42] 2).1.files.getD 0 dfile).modified = true :=
  write_device_layout wS wD 0 0 [17, 42] 2 (by decide) (by decide) (by decide)
    (by decide) (by decide) (by decide)

/-- C10: a successful `write` changes no device byte outside
`[startAddr, endAddr]`, no descriptor other than the written record's, and
of that descriptor only the `dataLen` and `modified` fields; the store-level
flag and the table length are also unchanged. -/
theorem write_frame (s : EEFILE) (d : Device) (t idx : Nat) (data : List Nat)
    (len : Nat)
    (hen : s.is_enabled = true) (hidx : s.findFileIndex t = some idx)
    (hfe : (s.files.getD idx dfile).enabled = true)
    (hlen : len ≤ (s.files.getD idx dfile).maxSize)
    (hE : (s.files.getD idx dfile).endAddr =
      (s.files.getD idx dfile).startAddr + (s.files.getD idx dfile).maxSize)
    (hfit : (s.files.getD idx dfile).startAddr + (s.files.getD idx dfile).maxSize + 1 < 65536) :
    (∀ a, a < (s.files.getD idx dfile).startAddr ∨ (s.files.getD idx dfile).endAddr < a →
      (s.write d t data len).2.1 a = d a) ∧
    (∀ j, j < s.files.length → j ≠ idx →
      (s.write d t data len).1.files.getD j dfile = s.files.getD j dfile) ∧
    (s.write d t data len).1.files.getD idx dfile =
      { s.files.getD idx dfile with dataLen := len, modified := true } ∧
    (s.write d t data len).1.is_enabled = s.is_enabled ∧
    (s.write d t data len).1.files.length = s.files.length := by
  have hl : len < 65536 := by omega
  have hidx_lt : idx < s.files.length := findIdxAux_lt t s.files idx hidx
  rw [write_eq s d t idx data len hen hidx hfe hlen hl]
  refine ⟨?_, ?_, ?_, rfl, ?_⟩
  · intro a ha
    exact write_dev_out _ _ len data d a hlen (by omega) (fun j hj => by omega)
  · intro j hj hne
    exact getD_set_ne s.files idx j _ hne
  · exact getD_set_self s.files idx _ hidx_lt
  · exact List.length_set s.files idx _

/-- C10 witness at the concrete 4-byte record of `wS`. -/
theorem write_frame_w :
    (∀ a, a < (wS.files.getD 0 dfile).startAddr ∨ (wS.files.getD 0 dfile).endAddr < a →
      (wS.write wD 0 [17, 42] 2).2.1 a = wD a) ∧
    (∀ j, j < wS.files.length → j ≠ 0 →
      (wS.write wD 0 [17, 42] 2).1.files.getD j dfile = wS.files.getD j dfile) ∧
    (wS.write wD 0 [17, 42] 2).1.files.getD 0 dfile =
      { wS.files.getD 0 dfile with dataLen := 2, modified := true } ∧
    (wS.write wD 0 [17, 42] 2).1.is_enabled = wS.is_enabled ∧
    (wS.write wD 0 [17, 42] 2).1.files.length = wS.files.length :=
  write_frame wS wD 0 0 [17, 42] 2 (by decide) (by decide) (by decide) (by decide)
    (by decide) (by decide)

/-- C8: a successful `erase` on a registered record reports success, makes
`isFileValid` false and `getFileDataLen` zero, makes any subsequent `read`
fail, writes `0x00` to the marker byte and to no other device address
(payload bytes are untouched), and resets the in-memory `dataLen` to 0 and
`modified` to `false`. -/
theorem erase_semantics (s : EEFILE) (d : Device) (t idx len : Nat)
    (hen : s.is_enabled = true) (hidx : s.findFileIndex t = some idx) :
    (s.erase d t).2.2 = true ∧
    EEFILE.isFileValid (s.erase d t).1 (s.erase d t).2.1 t = false ∧
    EEFILE.getFileDataLen (s.erase d t).1 t = 0 ∧
    EEFILE.read (s.erase d t).1 (s.erase d t).2.1 t len = none ∧
    (s.erase d t).2.1 ((s.files.getD idx dfile).startAddr) = 0x00 ∧
    (∀ a, a ≠ (s.files.getD idx dfile).startAddr → (s.erase d t).2.1 a = d a) ∧
    ((s.erase d t).1.files.getD idx dfile).dataLen = 0 ∧
    ((s.erase d t).1.files.getD idx dfile).modified = false := by
  have hidx_lt : idx < s.files.length := findIdxAux_lt t s.files idx hidx
  rw [erase_eq s d t idx hen hidx]
  have hidx' : ({ s with files := (s.files.set idx
      ({ s.files.getD idx dfile with dataLen := 0, modified := false })) } :
        EEFILE).findFileIndex t = some idx :=
    (findIdxAux_set t s.files idx
      ({ s.files.getD idx dfile with dataLen := 0, modified := false }) rfl).trans hidx
  have hget : ({ s with files := (s.files.set idx
      ({ s.files.getD idx dfile with dataLen := 0, modified := false })) } :
        EEFILE).files.getD idx dfile =
      { s.files.getD idx dfile with dataLen := 0, modified := false } :=
    getD_set_self s.files idx _ hidx_lt
  have hget2 : ({ s with files := (s.files.set idx
      ({ s.files.getD idx dfile with dataLen := 0, modified := false })) } :
        EEFILE).files[idx]?.getD dfile =
      ({ s.files.getD idx dfile with dataLen := 0, modified := false } : FileMetadata) := by
    rw [← List.getD_eq_getElem?_getD]
    exact hget
  have hen' : ({ s with files := (s.files.set idx
      ({ s.files.getD idx dfile with dataLen := 0, modified := false })) } :
        EEFILE).is_enabled = true := hen
  refine ⟨rfl, ?_, ?_, ?_, ?_, ?_, ?_, ?_⟩
  · unfold EEFILE.isFileValid
    rw [hidx']
    dsimp only
    rw [getD_set_self s.files idx _ hidx_lt]
    dsimp only
    rw [writeByte_at]
    rfl
  · unfold EEFILE.getFileDataLen
    rw [hidx']
    dsimp only
    rw [getD_set_self s.files idx _ hidx_lt]
  · simp only [EEFILE.read]
    rw [hidx']
    dsimp only
    rw [getD_set_self s.files idx _ hidx_lt]
    dsimp only
    rw [hen]
    simp only [Bool.not_true, Bool.false_eq_true, if_false]
    by_cases hfe : (s.files.getD idx dfile).enabled
    · rw [hfe]
      simp [writeByte_at]
    · simp [hfe]
      intro _
      rw [writeByte_at]
      decide
  · dsimp only
    rw [writeByte_at]
  · intro a ha
    exact writeByte_ne _ _ _ _ ha
  · dsimp only
    rw [getD_set_self s.files idx _ hidx_lt]
  · dsimp only
    rw [getD_set_self s.files idx _ hidx_lt]

/-- C8 witness: erase a concrete record that holds valid data. -/
theorem erase_semantics_w :
    (wS6.erase wD6 0).2.2 = true ∧
    EEFILE.isFileValid (wS6.erase wD6 0).1 (wS6.erase wD6 0).2.1 0 = false ∧
    EEFILE.getFileDataLen (wS6.erase wD6 0).1 0 = 0 ∧
    EEFILE.read (wS6.erase wD6 0).1 (wS6.erase wD6 0).2.1 0 7 = none ∧
    (wS6.erase wD6 0).2.1 ((wS6.files.getD 0 dfile).startAddr) = 0x00 ∧
    (∀ a, a ≠ (wS6.files.getD 0 dfile).startAddr → (wS6.erase wD6 0).2.1 a = wD6 a) ∧
    ((wS6.erase wD6 0).1.files.getD 0 dfile).dataLen = 0 ∧
    ((wS6.erase wD6 0).1.files.getD 0 dfile).modified = false :=
  erase_semantics wS6 wD6 0 0 7 (by decide) (by decide)

/-- C4 counterexample: both registrations succeed, yet the second record
starts at address 0 instead of `endAddr₀ + 1 = 65536`, inside the first
record's region `[0, 65535]`: with `maxSize = 0xFFFF` admitted (the
`actualSize` wrap), `calculateNextAddr` also wraps (`65535 + 1 → 0`), so the
regions of two successfully registered records are neither contiguous nor
disjoint. -/
theorem registration_layout_cex :
    (emptyStore.registerAuto 0 65535).2 = true ∧
    (sOv1.registerAuto 1 0).2 = true ∧
    (sOv2.files.getD 0 dfile).startAddr = 0 ∧
    (sOv2.files.getD 0 dfile).endAddr = 65535 ∧
    (sOv2.files.getD 1 dfile).startAddr = 0 ∧
    (sOv2.files.getD 1 dfile).startAddr ≠ (sOv2.files.getD 0 dfile).endAddr + 1 := by
  decide

/-- C4 (amended): provided every registered `maxPayloadSize`, as a `uint16`,
is at most 65534 (so `maxSize + 1` cannot wrap), any sequence of
registrations from the empty store yields a table whose first record starts
at address 0, whose `n`-th record starts at the `(n-1)`-th record's
`endAddr + 1`, with `endAddr = startAddr + maxSize`, and whose regions are
pairwise disjoint; in particular registering A(1), B(4), C(16) gives regions
`[0,1]`, `[2,6]`, `[7,23]`, and the example write/validate/read of `0x42`
into A behaves as described. -/
theorem registration_layout (L : List (Nat × Nat)) (hL : ∀ p ∈ L, p.2 % 65536 < 65535) :
    (0 < (registerAll emptyStore L).files.length →
      ((registerAll emptyStore L).files.getD 0 dfile).startAddr = 0) ∧
    (∀ n, n + 1 < (registerAll emptyStore L).files.length →
      ((registerAll emptyStore L).files.getD (n + 1) dfile).startAddr =
        ((registerAll emptyStore L).files.getD n dfile).endAddr + 1) ∧
    (∀ n, n < (registerAll emptyStore L).files.length →
      ((registerAll emptyStore L).files.getD n dfile).endAddr =
        ((registerAll emptyStore L).files.getD n dfile).startAddr +
          ((registerAll emptyStore L).files.getD n dfile).maxSize) ∧
    (∀ i j, i < j → j < (registerAll emptyStore L).files.length →
      ((registerAll emptyStore L).files.getD i dfile).endAddr <
        ((registerAll emptyStore L).files.getD j dfile).startAddr) ∧
    demoStore.files.map (fun f => (f.startAddr, f.endAddr)) = [(0, 1), (2, 6), (7, 23)] ∧
    demoW.2.2 = true ∧ EEFILE.isFileValid demoW.1 demoD 0 = true ∧
    EEFILE.read demoW.1 demoD 0 1 = some [0x42] := by
  have hinv : contiguousFrom 0 (registerAll emptyStore L).files :=
    registerAll_inv L emptyStore hL trivial
  refine ⟨?_, ?_, ?_, ?_, by decide, by decide, by decide, by decide⟩
  · intro h
    exact contiguousFrom_head _ 0 hinv h
  · intro n hn
    exact contiguousFrom_succ _ 0 hinv n hn
  · intro n hn
    exact (contiguousFrom_endAddr _ 0 hinv n hn).1
  · intro i j hij hj
    exact contiguousFrom_disjoint _ 0 hinv i j hij hj

/-- C4 witness: a concrete two-record registration sequence. -/
theorem registration_layout_w :
    (0 < (registerAll emptyStore [(5, 2), (9, 3)]).files.length →
      ((registerAll emptyStore [(5, 2), (9, 3)]).files.getD 0 dfile).startAddr = 0) ∧
    (∀ n, n + 1 < (registerAll emptyStore [(5, 2), (9, 3)]).files.length →
      ((registerAll emptyStore [(5, 2), (9, 3)]).files.getD (n + 1) dfile).startAddr =
        ((registerAll emptyStore [(5, 2), (9, 3)]).files.getD n dfile).endAddr + 1) ∧
    (∀ n, n < (registerAll emptyStore [(5, 2), (9, 3)]).files.length →
      ((registerAll emptyStore [(5, 2), (9, 3)]).files.getD n dfile).endAddr =
        ((registerAll emptyStore [(5, 2), (9, 3)]).files.getD n dfile).startAddr +
          ((registerAll emptyStore [(5, 2), (9, 3)]).files.getD n dfile).maxSize) ∧
    (∀ i j, i < j → j < (registerAll emptyStore [(5, 2), (9, 3)]).files.length →
      ((registerAll emptyStore [(5, 2), (9, 3)]).files.getD i dfile).endAddr <
        ((registerAll emptyStore [(5, 2), (9, 3)]).files.getD j dfile).startAddr) ∧
    demoStore.files.map (fun f => (f.startAddr, f.endAddr)) = [(0, 1), (2, 6), (7, 23)] ∧
    demoW.2.2 = true ∧ EEFILE.isFileValid demoW.1 demoD 0 = true ∧
    EEFILE.read demoW.1 demoD 0 1 = some [0x42] :=
  registration_layout [(5, 2), (9, 3)] (by decide)
